import Mathlib

/-!
Verification development for the MediathekViewWeb search core.

The development embeds, as Lean definitions, the channel segment converter
(its selector regular expression and its textToQuery method) together with
the filmlist manager module (compareTime, enqueueMissingFilmlists,
enqueueFilmlist). The query AST, the query builder, the segment tokenizer
and the compiler orchestrator are not part of the given sources; they are
modelled from the specification, as marked on each such definition.
-/

namespace MVW

/-- Modelled from the spec: the closed enumeration of searchable attributes
(spec section 3); the Field enumeration itself is imported by the sources but
not defined there. -/
inductive Field where
  | Channel
  | Topic
  | Title
  | Description
  | Duration
  | Timestamp
deriving DecidableEq, Repr

/-- Modelled from the spec: join semantics for multi-field or multi-term text
matches (spec section 3). -/
inductive Operator where
  | And
  | Or
deriving DecidableEq, Repr

/-- Modelled from the spec: the query AST (spec section 3): a tagged variant of
text match, range and boolean combination nodes. -/
inductive QueryBody where
  | textMatch (fields : List Field) (text : String) (operator : Operator)
  | range (field : Field) (min : Option Int) (max : Option Int)
  | bool (must : List QueryBody) (mustNot : List QueryBody) (should : List QueryBody)

/-- Modelled from the spec: one unit of the tokenized input string (spec
section 3): raw text, an optional selector token, the value text and the
negation flag. -/
structure Segment where
  rawText : String
  selectorToken : Option String
  valueText : String
  negated : Bool
deriving DecidableEq, Repr

/-- ASCII lowercasing, written charwise so that the case-insensitivity of
selector matching can be stated and proved; it agrees with the JavaScript
toLowerCase on the ASCII tokens relevant here. -/
def strToLower (s : String) : String := ⟨s.data.map Char.toLower⟩

/-- Embedding of SELECTOR_REGEX from the channel segment converter source
(line 8). The anchored alternation of nested optional groups denotes a finite
language: exactly the non-empty prefixes of the canonical name channel, the
non-empty prefixes of the alias sender, and the bare symbol. -/
def selectorRegexLang : List String :=
  [("c"), ("ch"), ("cha"), ("chan"), ("chann"), ("channe"), ("channel"),
   ("s"), ("se"), ("sen"), ("send"), ("sende"), ("sender"),
   ("!")]

/-- Membership in the language of SELECTOR_REGEX. -/
def regexTest (t : String) : Bool := decide (t ∈ selectorRegexLang)

/-- Modelled from the spec: the canHandleSegment logic of
SelectorSegmentConverterBase is not in the given sources; the spec states that
matching is case-insensitive, so the candidate token is lowercased before it
is tested against the selector regular expression of the field. -/
def channelClaimsToken (t : String) : Bool := regexTest (strToLower t)

/-- Claim decision of the channel converter over a whole segment: a segment is
claimed when its selector token is present and matches the selector rule. -/
def channelClaimsSegment (seg : Segment) : Bool :=
  match seg.selectorToken with
  | some t => channelClaimsToken t
  | none => false

/-- Modelled from the spec: the fluent text query builder state (spec section
2, Query Builder); the builder source is not included. -/
structure TextQueryBuilder where
  fieldsList : List Field
  textValue : Option String
  operatorValue : Option Operator

/-- A fresh builder with nothing set. -/
def TextQueryBuilder.empty : TextQueryBuilder := ⟨[], none, none⟩

/-- The fields method of the builder: sets the field list. -/
def TextQueryBuilder.fields (b : TextQueryBuilder) (fs : List Field) : TextQueryBuilder :=
  ⟨fs, b.textValue, b.operatorValue⟩

/-- The text method of the builder: sets the search text. -/
def TextQueryBuilder.text (b : TextQueryBuilder) (t : String) : TextQueryBuilder :=
  ⟨b.fieldsList, some t, b.operatorValue⟩

/-- The operator method of the builder: sets the join operator. -/
def TextQueryBuilder.operator (b : TextQueryBuilder) (o : Operator) : TextQueryBuilder :=
  ⟨b.fieldsList, b.textValue, some o⟩

/-- Modelled from the spec: build validates required parts before
finalization: the field set must be non-empty and a text must be present;
the operator defaults to And. -/
def TextQueryBuilder.build (b : TextQueryBuilder) : Option QueryBody :=
  match b.fieldsList, b.textValue with
  | [], _ => none
  | _, none => none
  | fs, some t => some (QueryBody.textMatch fs t (b.operatorValue.getD Operator.And))

namespace ChannelSegmentConverter

/-- Embedding of ChannelSegmentConverter.textToQuery from the channel segment
converter source (lines 16 to 26): a fresh builder, then fields set to the
channel field, then the text, then Operator.And, then build. -/
def textToQuery (text : String) : Option QueryBody :=
  (((TextQueryBuilder.empty.fields [Field.Channel]).text text).operator Operator.And).build

end ChannelSegmentConverter

/-- Modelled from the spec: the error taxonomy of compilation (spec section
7): tokenize errors, unknown selector errors and conversion errors. -/
inductive CompileError where
  | tokenizeError
  | unknownSelector (token : String)
  | conversionError (raw : String)
deriving DecidableEq, Repr

/-- Modelled from the spec: a segment converter pairs a claim decision with a
field-specific value conversion (spec section 4.2). -/
structure SegmentConverter where
  claims : Segment → Bool
  convert : Segment → Except CompileError QueryBody

/-- Characters of a token annotated with whether they came from a quoted
span; quoted characters are protected from the separator search. -/
abbrev AnnChar := Char × Bool

/-- Appends the current token, if non-empty, onto the accumulator. -/
def flushToken (cur : List AnnChar) (acc : List (List AnnChar)) : List (List AnnChar) :=
  match cur with
  | [] => acc
  | _ => cur.reverse :: acc

/-- Modelled from the spec: the quote-aware whitespace splitter of the
tokenizer (spec section 4.3): splits on whitespace outside quoted spans,
keeps quoted spans intact, honours the escape character for embedded quotes,
and rejects an unterminated quoted span. -/
def splitTokensAux : Bool → List AnnChar → List (List AnnChar) → List Char →
    Except CompileError (List (List AnnChar))
  | true, _, _, [] => Except.error CompileError.tokenizeError
  | false, cur, acc, [] => Except.ok (flushToken cur acc).reverse
  | true, cur, acc, '\\' :: '"' :: rest => splitTokensAux true (('"', true) :: cur) acc rest
  | true, cur, acc, '"' :: rest => splitTokensAux false cur acc rest
  | true, cur, acc, c :: rest => splitTokensAux true ((c, true) :: cur) acc rest
  | false, cur, acc, '"' :: rest => splitTokensAux true cur acc rest
  | false, cur, acc, c :: rest =>
    if c.isWhitespace then splitTokensAux false [] (flushToken cur acc) rest
    else splitTokensAux false ((c, false) :: cur) acc rest

/-- The text of an annotated token. -/
def annotChars (tok : List AnnChar) : String := ⟨tok.map Prod.fst⟩

/-- Modelled from the spec: a leading unquoted negation marker sets the
negation flag and is stripped before the separator search (spec section 4.3). -/
def stripNegation : List AnnChar → Bool × List AnnChar
  | ('-', false) :: rest => (true, rest)
  | tok => (false, tok)

/-- Modelled from the spec: the first occurrence, outside quotes, of the
selector and value separator splits the token (spec section 4.3). -/
def findSep : List AnnChar → Option (List AnnChar × List AnnChar)
  | [] => none
  | (c, q) :: rest =>
    if c = ':' ∧ q = false then some ([], rest)
    else
      match findSep rest with
      | some (pre, post) => some ((c, q) :: pre, post)
      | none => none

/-- Modelled from the spec: turns one whitespace-delimited token into a
segment (spec section 4.3). -/
def parseToken (tok : List AnnChar) : Segment :=
  let raw := annotChars tok
  match stripNegation tok with
  | (neg, tok1) =>
    match findSep tok1 with
    | some (pre, post) => ⟨raw, some (annotChars pre), annotChars post, neg⟩
    | none => ⟨raw, none, annotChars tok1, neg⟩

/-- Modelled from the spec: the segment tokenizer (spec section 4.3): raw
string to ordered segments, or a tokenize error. -/
def tokenize (input : String) : Except CompileError (List Segment) :=
  match splitTokensAux false [] [] input.data with
  | Except.error e => Except.error e
  | Except.ok toks => Except.ok (toks.map parseToken)

/-- Modelled from the spec: the synthesized default text match over the
default fields for a segment without a selector (spec section 4.4 step 2). -/
def defaultTextMatch (defaultFields : List Field) (seg : Segment) : QueryBody :=
  QueryBody.textMatch defaultFields seg.valueText Operator.And

/-- Modelled from the spec: per-segment dispatch of the compiler (spec
section 4.4 step 2 and 3): the first registered converter that claims the
segment converts it; with no claimant, a present non-empty selector token is
an unknown selector error, otherwise the default text match is synthesized. -/
def convertSegment (converters : List SegmentConverter) (defaultFields : List Field)
    (seg : Segment) : Except CompileError QueryBody :=
  match converters.find? (fun c => c.claims seg) with
  | some c => c.convert seg
  | none =>
    match seg.selectorToken with
    | none => Except.ok (defaultTextMatch defaultFields seg)
    | some t =>
      if t = ("") then Except.ok (defaultTextMatch defaultFields seg)
      else Except.error (CompileError.unknownSelector t)

/-- Modelled from the spec: converts the segments in input order, keeping the
negation flag of each, propagating the first error (spec section 4.4). -/
def compileSegments (converters : List SegmentConverter) (defaultFields : List Field) :
    List Segment → Except CompileError (List (QueryBody × Bool))
  | [] => Except.ok []
  | seg :: rest =>
    match convertSegment converters defaultFields seg with
    | Except.error e => Except.error e
    | Except.ok q =>
      match compileSegments converters defaultFields rest with
      | Except.error e => Except.error e
      | Except.ok qs => Except.ok ((q, seg.negated) :: qs)

/-- The non-negated nodes, in order. -/
def mustNodes (results : List (QueryBody × Bool)) : List QueryBody :=
  results.filterMap (fun r => if r.2 then none else some r.1)

/-- The negated nodes, in order. -/
def mustNotNodes (results : List (QueryBody × Bool)) : List QueryBody :=
  results.filterMap (fun r => if r.2 then some r.1 else none)

/-- Modelled from the spec: the fold of per-segment nodes (spec section 4.4
step 5): one non-negated node and no negated node is returned bare, anything
else becomes a boolean combination node. -/
def foldNodes (must mustNot : List QueryBody) : QueryBody :=
  match must, mustNot with
  | [q], [] => q
  | m, mn => QueryBody.bool m mn []

/-- Modelled from the spec: the compiler orchestrator (spec section 4.4):
tokenize, convert each segment, fold. -/
def compile (converters : List SegmentConverter) (defaultFields : List Field)
    (input : String) : Except CompileError QueryBody :=
  match tokenize input with
  | Except.error e => Except.error e
  | Except.ok segs =>
    match compileSegments converters defaultFields segs with
    | Except.error e => Except.error e
    | Except.ok results => Except.ok (foldNodes (mustNodes results) (mustNotNodes results))

/-- The convert side of the channel converter: textToQuery on the value text
of the segment; a failed build is a conversion error carrying the raw text. -/
def channelConvert (seg : Segment) : Except CompileError QueryBody :=
  match ChannelSegmentConverter.textToQuery seg.valueText with
  | some q => Except.ok q
  | none => Except.error (CompileError.conversionError seg.rawText)

/-- The registered channel segment converter. -/
def channelConverter : SegmentConverter := ⟨channelClaimsSegment, channelConvert⟩

/-- Modelled from the spec: the default free-text fields (spec section 8
scenario 1). -/
def mvwDefaultFields : List Field := [Field.Title, Field.Description]

/-- Outcome of one compareTime call: whether the guarded function was
invoked, whether it threw, and the stored timestamp for the key afterwards. -/
structure CompareTimeResult where
  invoked : Bool
  threw : Bool
  stored : Option Int
deriving DecidableEq, Repr

/-- Embedding of FilmlistManagerModule.compareTime (filmlist-manager source,
lines 69 to 78). The key-value store entry for the key is an optional stored
timestamp, read with default 0; the guarded asynchronous function is modelled
by whether it throws; timestamps are integers in milliseconds. The function
runs exactly when now minus the last check is at least the interval, and the
store is written with now only after the function returned without throwing. -/
def compareTime (stored : Option Int) (now : Int) (interval : Int) (funcThrows : Bool) :
    CompareTimeResult :=
  let lastCheck := stored.getD 0
  let difference := now - lastCheck
  if interval ≤ difference then
    if funcThrows then ⟨true, true, stored⟩
    else ⟨true, false, some now⟩
  else ⟨false, false, stored⟩

/-- A filmlist resource: an identifier and a timestamp. -/
structure FilmlistResource where
  id : String
  timestamp : Int
deriving DecidableEq, Repr

/-- A filmlist as produced by the filmlist provider. -/
structure Filmlist where
  resource : FilmlistResource
deriving DecidableEq, Repr

/-- A filmlist import record as saved by the import repository; the save
operation assigns the numeric id. -/
structure FilmlistImport where
  id : Nat
  resource : FilmlistResource
  state : String
  enqueueTimestamp : Int
  filmlistMetadata : Option String
  importTimestamp : Option Int
  importDuration : Option Int
  entriesCount : Option Int
deriving DecidableEq, Repr

/-- A queue item referencing a saved filmlist import by id. -/
structure FilmlistImportQueueItem where
  filmlistImportId : Nat
deriving DecidableEq, Repr

/-- The combined state of the filmlist import repository and of the filmlist
queue of imports: the saved imports, the queued items and the next id the
repository will assign on save. -/
structure ManagerState where
  imports : List FilmlistImport
  queue : List FilmlistImportQueueItem
  nextId : Nat
deriving DecidableEq, Repr

/-- The hasResource check of the filmlist import repository: some saved
record references the given resource id. -/
def hasResource (st : ManagerState) (rid : String) : Bool :=
  st.imports.any (fun i => i.resource.id == rid)

/-- Embedding of FilmlistManagerModule.enqueueFilmlist (filmlist-manager
source, lines 105 to 124): builds the import with state pending and null
metadata, import timestamp, import duration and entries count, saves it (the
repository assigns the next id), then enqueues a queue item referencing the
id of the saved import. -/
def enqueueFilmlist (now : Int) (st : ManagerState) (f : Filmlist) : ManagerState :=
  let imp : FilmlistImport := ⟨st.nextId, f.resource, ("pending"), now, none, none, none, none⟩
  ⟨st.imports ++ [imp], st.queue ++ [⟨st.nextId⟩], st.nextId + 1⟩

/-- Embedding of FilmlistManagerModule.enqueueMissingFilmlists
(filmlist-manager source, lines 95 to 103): streams the filmlists in order,
keeps those whose resource timestamp is at least the minimum timestamp and
whose resource id is not yet in the repository, and enqueues each kept one;
the cancellation guard is modelled as never set, since its flipping is
concurrent behaviour outside this embedding. -/
def enqueueMissingFilmlists (now : Int) (minimumTimestamp : Int) (st : ManagerState) :
    List Filmlist → ManagerState
  | [] => st
  | f :: rest =>
    if minimumTimestamp ≤ f.resource.timestamp ∧ hasResource st f.resource.id = false then
      enqueueMissingFilmlists now minimumTimestamp (enqueueFilmlist now st f) rest
    else
      enqueueMissingFilmlists now minimumTimestamp st rest

/-- C1: selector matching for the Channel field is case-insensitive: for
every token t claimed by the channel converter, every case variant s of t
(same lowercasing) is claimed as well. -/
theorem channel_selector_case_insensitive (t s : String)
    (hcase : strToLower s = strToLower t) (hclaim : channelClaimsToken t = true) :
    channelClaimsToken s = true := by
  unfold channelClaimsToken at hclaim ⊢
  rw [hcase]
  exact hclaim

/-- Witness for C1 at concrete case variants of sender, channel and c. -/
theorem channel_selector_case_insensitive_witness :
    channelClaimsToken ("SENDER") = true ∧
    channelClaimsToken ("Channel") = true ∧
    channelClaimsToken ("C") = true :=
  ⟨channel_selector_case_insensitive ("sender") ("SENDER") (by decide) (by decide),
   channel_selector_case_insensitive ("channel") ("Channel") (by decide) (by decide),
   channel_selector_case_insensitive ("c") ("C") (by decide) (by decide)⟩

/-- C4: the empty string is never a valid selector token: the channel rule
does not claim it, and an input consisting of a lone separator before a value
compiles as generic free text over the default fields rather than as a
channel-scoped clause. -/
theorem empty_selector_not_claimed :
    channelClaimsToken ("") = false ∧
    compile [channelConverter] mvwDefaultFields (":arte") =
      Except.ok (QueryBody.textMatch mvwDefaultFields ("arte") Operator.And) :=
  ⟨by decide, rfl⟩

/-- C5: for every value text t, the channel converter textToQuery returns a
text match node over exactly the Channel field, with text t and operator And. -/
theorem channel_textToQuery_spec (t : String) :
    ChannelSegmentConverter.textToQuery t =
      some (QueryBody.textMatch [Field.Channel] t Operator.And) := rfl

/-- C6: compilation is deterministic: two compile calls with identical
converter registration, default fields and input yield identical results. -/
theorem compile_deterministic (cs : List SegmentConverter) (df : List Field) (s : String)
    (r1 r2 : Except CompileError QueryBody)
    (h1 : compile cs df s = r1) (h2 : compile cs df s = r2) : r1 = r2 :=
  h1.symm.trans h2

/-- Witness for C6 at a concrete input. -/
theorem compile_deterministic_witness :
    (Except.ok (QueryBody.textMatch mvwDefaultFields ("arte") Operator.And) :
        Except CompileError QueryBody) =
      Except.ok (QueryBody.textMatch mvwDefaultFields ("arte") Operator.And) :=
  compile_deterministic [channelConverter] mvwDefaultFields ("arte") _ _ rfl rfl

/-- C9: compareTime invokes the guarded function exactly when at least the
interval has elapsed since the stored last-check timestamp (default 0); it
throws only when the function was invoked and threw; it writes the new
timestamp exactly when the function completed without throwing; otherwise the
stored timestamp is unchanged. -/
theorem compareTime_spec (stored : Option Int) (now interval : Int) (ft : Bool) :
    ((compareTime stored now interval ft).invoked = true ↔ interval ≤ now - stored.getD 0)
    ∧ ((compareTime stored now interval ft).threw = (ft && (compareTime stored now interval ft).invoked))
    ∧ ((compareTime stored now interval ft).invoked = true → ft = false →
        (compareTime stored now interval ft).stored = some now)
    ∧ ((compareTime stored now interval ft).invoked = false ∨ ft = true →
        (compareTime stored now interval ft).stored = stored) := by
  by_cases h : interval ≤ now - stored.getD 0 <;> cases ft <;> simp [compareTime, h]

/-- Witness for C9: with 100 stored, now 200 and interval 50 the function is
invoked and, not throwing, the timestamp is updated to 200. -/
theorem compareTime_spec_witness :
    (compareTime (some 100) 200 50 false).invoked = true ∧
    (compareTime (some 100) 200 50 false).stored = some 200 := by
  have h := compareTime_spec (some 100) 200 50 false
  have hi : (compareTime (some 100) 200 50 false).invoked = true := (h.1).mpr (by decide)
  exact ⟨hi, h.2.2.1 hi rfl⟩

/-- C2: for the Channel field, every non-empty prefix of the canonical name
channel and of the alias sender is claimed, the bare symbol is claimed, a
strict extension such as channels is not claimed, and every claimed token is,
up to lowercasing, one of these prefixes or the bare symbol. -/
theorem channel_selector_prefix_complete :
    (∀ n, 0 < n → n ≤ 7 → channelClaimsToken (("channel").take n) = true)
    ∧ (∀ n, 0 < n → n ≤ 6 → channelClaimsToken (("sender").take n) = true)
    ∧ channelClaimsToken ("!") = true
    ∧ channelClaimsToken ("channels") = false
    ∧ (∀ t, channelClaimsToken t = true →
        strToLower t = ("!") ∨
        ∃ n, 0 < n ∧ (strToLower t = ("channel").take n ∨ strToLower t = ("sender").take n)) := by
  refine ⟨?_, ?_, by decide, by decide, ?_⟩
  · have hball : ∀ m, m < 8 → 0 < m → channelClaimsToken (("channel").take m) = true := by decide
    intro n h1 h2
    exact hball n (by omega) h1
  · have hball : ∀ m, m < 7 → 0 < m → channelClaimsToken (("sender").take m) = true := by decide
    intro n h1 h2
    exact hball n (by omega) h1
  · intro t h
    have hmem : strToLower t ∈ selectorRegexLang := by
      unfold channelClaimsToken regexTest at h
      exact of_decide_eq_true h
    unfold selectorRegexLang at hmem
    simp only [List.mem_cons, List.not_mem_nil, or_false] at hmem
    rcases hmem with h|h|h|h|h|h|h|h|h|h|h|h|h|h
    · exact Or.inr ⟨1, by decide, Or.inl (by rw [h]; decide)⟩
    · exact Or.inr ⟨2, by decide, Or.inl (by rw [h]; decide)⟩
    · exact Or.inr ⟨3, by decide, Or.inl (by rw [h]; decide)⟩
    · exact Or.inr ⟨4, by decide, Or.inl (by rw [h]; decide)⟩
    · exact Or.inr ⟨5, by decide, Or.inl (by rw [h]; decide)⟩
    · exact Or.inr ⟨6, by decide, Or.inl (by rw [h]; decide)⟩
    · exact Or.inr ⟨7, by decide, Or.inl (by rw [h]; decide)⟩
    · exact Or.inr ⟨1, by decide, Or.inr (by rw [h]; decide)⟩
    · exact Or.inr ⟨2, by decide, Or.inr (by rw [h]; decide)⟩
    · exact Or.inr ⟨3, by decide, Or.inr (by rw [h]; decide)⟩
    · exact Or.inr ⟨4, by decide, Or.inr (by rw [h]; decide)⟩
    · exact Or.inr ⟨5, by decide, Or.inr (by rw [h]; decide)⟩
    · exact Or.inr ⟨6, by decide, Or.inr (by rw [h]; decide)⟩
    · exact Or.inl h

/-- C3: the bare symbolic shortcut of the Channel field is matched only by
exact equality: the one-character token is claimed while every longer token
beginning with the same character is not claimed. -/
theorem channel_bare_symbol_exact :
    channelClaimsToken ("!") = true ∧
    ∀ rest : List Char, rest ≠ [] →
      channelClaimsToken (String.mk ('!' :: rest)) = false := by
  refine ⟨by decide, ?_⟩
  intro rest hne
  have hlow : strToLower (String.mk ('!' :: rest)) = String.mk ('!' :: rest.map Char.toLower) := by
    simp [strToLower]
  unfold channelClaimsToken regexTest
  rw [hlow]
  apply decide_eq_false
  intro hmem
  unfold selectorRegexLang at hmem
  simp only [List.mem_cons, List.not_mem_nil, or_false] at hmem
  rcases hmem with h|h|h|h|h|h|h|h|h|h|h|h|h|h <;>
    first
      | (rw [String.ext_iff] at h; simp at h; exact hne h)
      | (rw [String.ext_iff] at h; simp at h)

/-- Witness for C3 at the concrete longer token. -/
theorem channel_bare_symbol_exact_witness :
    channelClaimsToken ("!x") = false :=
  channel_bare_symbol_exact.2 ['x'] (by decide)

/-- Witness for C2 at concrete prefixes of channel and sender. -/
theorem channel_selector_prefix_complete_witness :
    channelClaimsToken (("channel").take 3) = true ∧
    channelClaimsToken (("sender").take 2) = true :=
  ⟨channel_selector_prefix_complete.1 3 (by decide) (by decide),
   channel_selector_prefix_complete.2.1 2 (by decide) (by decide)⟩

/-- Helper: a segment whose conversion fails makes the whole segment list
conversion fail with some error. -/
theorem compileSegments_error_of_mem (cs : List SegmentConverter) (df : List Field)
    (segs : List Segment) (seg : Segment) (e : CompileError)
    (hmem : seg ∈ segs) (herr : convertSegment cs df seg = Except.error e) :
    ∃ e2, compileSegments cs df segs = Except.error e2 := by
  induction segs with
  | nil => cases hmem
  | cons x rest ih =>
    rcases List.mem_cons.mp hmem with hx | hx
    · subst hx
      exact ⟨e, by simp [compileSegments, herr]⟩
    · cases hcx : convertSegment cs df x with
      | error e3 => exact ⟨e3, by simp [compileSegments, hcx]⟩
      | ok q =>
        obtain ⟨e2, h2⟩ := ih hx
        exact ⟨e2, by simp [compileSegments, hcx, h2]⟩

/-- C7: a segment with a present non-empty selector token claimed by no
registered converter converts to an unknown selector error, and compilation
of the whole input fails rather than falling back to free text. -/
theorem unknown_selector_fails (cs : List SegmentConverter) (df : List Field) (s : String)
    (segs : List Segment) (seg : Segment) (t : String)
    (htok : tokenize s = Except.ok segs) (hmem : seg ∈ segs)
    (hsel : seg.selectorToken = some t) (hne : t ≠ (""))
    (hnoclaim : ∀ c ∈ cs, c.claims seg = false) :
    convertSegment cs df seg = Except.error (CompileError.unknownSelector t)
    ∧ ∃ e, compile cs df s = Except.error e := by
  have hfind : cs.find? (fun c => c.claims seg) = none := by
    rw [List.find?_eq_none]
    intro c hc
    simp [hnoclaim c hc]
  have hconv : convertSegment cs df seg = Except.error (CompileError.unknownSelector t) := by
    unfold convertSegment
    rw [hfind, hsel]
    simp [hne]
  refine ⟨hconv, ?_⟩
  obtain ⟨e2, h2⟩ := compileSegments_error_of_mem cs df segs seg _ hmem hconv
  refine ⟨e2, ?_⟩
  have hstep : compile cs df s =
      (match compileSegments cs df segs with
        | Except.error e => Except.error e
        | Except.ok results => Except.ok (foldNodes (mustNodes results) (mustNotNodes results))) := by
    unfold compile
    rw [htok]
  rw [hstep, h2]

/-- Witness for C7 at the concrete input with the unknown selector xyz. -/
theorem unknown_selector_fails_witness :
    convertSegment [channelConverter] mvwDefaultFields
        ⟨("xyz:value"), some ("xyz"), ("value"), false⟩ =
      Except.error (CompileError.unknownSelector ("xyz")) :=
  (unknown_selector_fails [channelConverter] mvwDefaultFields ("xyz:value")
    [⟨("xyz:value"), some ("xyz"), ("value"), false⟩]
    ⟨("xyz:value"), some ("xyz"), ("value"), false⟩ ("xyz")
    rfl (List.Mem.head _) rfl (by decide)
    (by
      intro c hc
      rw [List.mem_singleton] at hc
      subst hc
      decide)).1

/-- C8: when compilation produces exactly one non-negated node and no negated
node, compile returns that node itself and not a boolean wrapper around it. -/
theorem single_clause_minimization (cs : List SegmentConverter) (df : List Field) (s : String)
    (segs : List Segment) (results : List (QueryBody × Bool)) (q : QueryBody)
    (htok : tokenize s = Except.ok segs)
    (hres : compileSegments cs df segs = Except.ok results)
    (hmust : mustNodes results = [q]) (hmustNot : mustNotNodes results = []) :
    compile cs df s = Except.ok q := by
  have hstep : compile cs df s =
      (match compileSegments cs df segs with
        | Except.error e => Except.error e
        | Except.ok results => Except.ok (foldNodes (mustNodes results) (mustNotNodes results))) := by
    unfold compile
    rw [htok]
  rw [hstep, hres]
  show Except.ok (foldNodes (mustNodes results) (mustNotNodes results)) = Except.ok q
  rw [hmust, hmustNot]
  rfl

/-- Witness for C8 at the concrete single-clause input. -/
theorem single_clause_minimization_witness :
    compile [channelConverter] mvwDefaultFields ("c:arte") =
      Except.ok (QueryBody.textMatch [Field.Channel] ("arte") Operator.And) :=
  single_clause_minimization [channelConverter] mvwDefaultFields ("c:arte")
    [⟨("c:arte"), some ("c"), ("arte"), false⟩]
    [(QueryBody.textMatch [Field.Channel] ("arte") Operator.And, false)]
    (QueryBody.textMatch [Field.Channel] ("arte") Operator.And)
    rfl rfl rfl rfl

/-- Helper: enqueueMissingFilmlists only adds to the repository and to the
queue; existing imports and queue items remain. -/
theorem enqueueMissing_mono (now minTs : Int) (fs : List Filmlist) (st : ManagerState) :
    (∀ i ∈ st.imports, i ∈ (enqueueMissingFilmlists now minTs st fs).imports)
    ∧ (∀ q ∈ st.queue, q ∈ (enqueueMissingFilmlists now minTs st fs).queue) := by
  induction fs generalizing st with
  | nil =>
    simp only [enqueueMissingFilmlists]
    exact ⟨fun i hi => hi, fun q hq => hq⟩
  | cons f rest ih =>
    by_cases hc : minTs ≤ f.resource.timestamp ∧ hasResource st f.resource.id = false
    · have hunf : enqueueMissingFilmlists now minTs st (f :: rest) =
          enqueueMissingFilmlists now minTs (enqueueFilmlist now st f) rest := by
        simp only [enqueueMissingFilmlists]
        rw [if_pos hc]
      rw [hunf]
      constructor
      · intro i hi
        refine (ih (enqueueFilmlist now st f)).1 i ?_
        simp only [enqueueFilmlist, List.mem_append]
        exact Or.inl hi
      · intro q hq
        refine (ih (enqueueFilmlist now st f)).2 q ?_
        simp only [enqueueFilmlist, List.mem_append]
        exact Or.inl hq
    · have hunf : enqueueMissingFilmlists now minTs st (f :: rest) =
          enqueueMissingFilmlists now minTs st rest := by
        simp only [enqueueMissingFilmlists]
        rw [if_neg hc]
      rw [hunf]
      exact ih st

/-- Helper: a resource id absent after an enqueue was absent before it. -/
theorem hasResource_enqueue_false (now : Int) (st : ManagerState) (f : Filmlist) (rid : String)
    (h : hasResource (enqueueFilmlist now st f) rid = false) : hasResource st rid = false := by
  simp only [hasResource, enqueueFilmlist, List.any_append, Bool.or_eq_false_iff] at h
  exact h.1

/-- C10: every import added by enqueueMissingFilmlists comes from a listed
filmlist whose resource timestamp is at least the minimum timestamp and whose
resource id was not yet in the repository, is saved with state pending and
null metadata, import timestamp, import duration and entries count, and a
queue item referencing its id is enqueued; conversely every added queue item
references such a saved pending import. -/
theorem enqueueMissingFilmlists_spec (now minTs : Int) (st : ManagerState) (fs : List Filmlist) :
    (∀ i ∈ (enqueueMissingFilmlists now minTs st fs).imports,
        i ∈ st.imports ∨
          (i.state = ("pending") ∧ i.filmlistMetadata = none ∧ i.importTimestamp = none
            ∧ i.importDuration = none ∧ i.entriesCount = none
            ∧ minTs ≤ i.resource.timestamp ∧ hasResource st i.resource.id = false
            ∧ (∃ f ∈ fs, f.resource = i.resource)
            ∧ (⟨i.id⟩ : FilmlistImportQueueItem) ∈ (enqueueMissingFilmlists now minTs st fs).queue))
    ∧ (∀ q ∈ (enqueueMissingFilmlists now minTs st fs).queue,
        q ∈ st.queue ∨
          ∃ i ∈ (enqueueMissingFilmlists now minTs st fs).imports,
            i.id = q.filmlistImportId ∧ i.state = ("pending") ∧ i.filmlistMetadata = none
            ∧ i.importTimestamp = none ∧ i.importDuration = none ∧ i.entriesCount = none) := by
  induction fs generalizing st with
  | nil =>
    simp only [enqueueMissingFilmlists]
    exact ⟨fun i hi => Or.inl hi, fun q hq => Or.inl hq⟩
  | cons f rest ih =>
    by_cases hc : minTs ≤ f.resource.timestamp ∧ hasResource st f.resource.id = false
    · have hunf : enqueueMissingFilmlists now minTs st (f :: rest) =
          enqueueMissingFilmlists now minTs (enqueueFilmlist now st f) rest := by
        simp only [enqueueMissingFilmlists]
        rw [if_pos hc]
      rw [hunf]
      constructor
      · intro i hi
        rcases (ih (enqueueFilmlist now st f)).1 i hi with hmem | hprop
        · simp only [enqueueFilmlist, List.mem_append, List.mem_singleton] at hmem
          rcases hmem with hmem | hmem
          · exact Or.inl hmem
          · subst hmem
            refine Or.inr ⟨rfl, rfl, rfl, rfl, rfl, hc.1, hc.2, ⟨f, List.mem_cons_self f rest, rfl⟩, ?_⟩
            refine (enqueueMissing_mono now minTs rest (enqueueFilmlist now st f)).2 _ ?_
            simp only [enqueueFilmlist, List.mem_append, List.mem_singleton]
            exact Or.inr trivial
        · obtain ⟨hst, hmd, hit, hid, hec, hts, hres, ⟨g, hg, hgr⟩, hq⟩ := hprop
          exact Or.inr ⟨hst, hmd, hit, hid, hec, hts,
            hasResource_enqueue_false now st f _ hres, ⟨g, List.mem_cons_of_mem f hg, hgr⟩, hq⟩
      · intro q hq
        rcases (ih (enqueueFilmlist now st f)).2 q hq with hmem | hprop
        · simp only [enqueueFilmlist, List.mem_append, List.mem_singleton] at hmem
          rcases hmem with hmem | hmem
          · exact Or.inl hmem
          · subst hmem
            refine Or.inr ⟨⟨st.nextId, f.resource, ("pending"), now, none, none, none, none⟩, ?_, rfl, rfl, rfl, rfl, rfl, rfl⟩
            refine (enqueueMissing_mono now minTs rest (enqueueFilmlist now st f)).1 _ ?_
            simp only [enqueueFilmlist, List.mem_append, List.mem_singleton]
            exact Or.inr trivial
        · exact Or.inr hprop
    · have hunf : enqueueMissingFilmlists now minTs st (f :: rest) =
          enqueueMissingFilmlists now minTs st rest := by
        simp only [enqueueMissingFilmlists]
        rw [if_neg hc]
      rw [hunf]
      constructor
      · intro i hi
        rcases (ih st).1 i hi with hmem | hprop
        · exact Or.inl hmem
        · obtain ⟨hst, hmd, hit, hid, hec, hts, hres, ⟨g, hg, hgr⟩, hq⟩ := hprop
          exact Or.inr ⟨hst, hmd, hit, hid, hec, hts, hres, ⟨g, List.mem_cons_of_mem f hg, hgr⟩, hq⟩
      · intro q hq
        exact (ih st).2 q hq


/-- Witness for C10: from the empty repository, one filmlist with resource id
res1 and timestamp 5 is enqueued with a pending import and a queue item. -/
theorem enqueueMissingFilmlists_spec_witness :
    (⟨0, ⟨("res1"), 5⟩, ("pending"), 100, none, none, none, none⟩ : FilmlistImport) ∈
        (⟨[], [], 0⟩ : ManagerState).imports ∨
      ((⟨0, ⟨("res1"), 5⟩, ("pending"), 100, none, none, none, none⟩ : FilmlistImport).state = ("pending")
        ∧ (⟨0, ⟨("res1"), 5⟩, ("pending"), 100, none, none, none, none⟩ : FilmlistImport).filmlistMetadata = none
        ∧ (⟨0, ⟨("res1"), 5⟩, ("pending"), 100, none, none, none, none⟩ : FilmlistImport).importTimestamp = none
        ∧ (⟨0, ⟨("res1"), 5⟩, ("pending"), 100, none, none, none, none⟩ : FilmlistImport).importDuration = none
        ∧ (⟨0, ⟨("res1"), 5⟩, ("pending"), 100, none, none, none, none⟩ : FilmlistImport).entriesCount = none
        ∧ (0 : Int) ≤ (⟨0, ⟨("res1"), 5⟩, ("pending"), 100, none, none, none, none⟩ : FilmlistImport).resource.timestamp
        ∧ hasResource ⟨[], [], 0⟩ (⟨0, ⟨("res1"), 5⟩, ("pending"), 100, none, none, none, none⟩ : FilmlistImport).resource.id = false
        ∧ (∃ f ∈ [(⟨⟨("res1"), 5⟩⟩ : Filmlist)], f.resource = (⟨0, ⟨("res1"), 5⟩, ("pending"), 100, none, none, none, none⟩ : FilmlistImport).resource)
        ∧ (⟨(⟨0, ⟨("res1"), 5⟩, ("pending"), 100, none, none, none, none⟩ : FilmlistImport).id⟩ : FilmlistImportQueueItem) ∈
            (enqueueMissingFilmlists 100 0 ⟨[], [], 0⟩ [⟨⟨("res1"), 5⟩⟩]).queue) :=
  (enqueueMissingFilmlists_spec 100 0 ⟨[], [], 0⟩ [⟨⟨("res1"), 5⟩⟩]).1
    ⟨0, ⟨("res1"), 5⟩, ("pending"), 100, none, none, none, none⟩ (by decide)

end MVW
